import Mathlib

/-!
Verification of the Pearson-residual normalization slice of scanpy
(`scanpy/experimental/pp/_normalization.py`).

The two functions under study are `_pearson_residuals` (the analytic
Pearson residual transform) and `normalize_pearson_residuals` (the
AnnData-level driver).  Machine `float64` values that may legitimately be
`+inf` (the `theta` and `clip` parameters) are embedded as `F64`, a real
number or positive infinity; all matrix arithmetic is embedded over `ℝ`.
Observable side effects (the defensive `X.copy()`, the `UserWarning`, the
heavy matrix pass) are recorded as an event trace so that ordering claims
("validation precedes computation") are statable.
-/

namespace Scanpy

noncomputable section

open Classical

/-- A `np.float64` parameter value: a finite real or `+inf`.  `NaN` and
`-inf` play no role in the functions under study and are omitted. -/
inductive F64 where
  | fin : ℝ → F64
  | inf : F64

/-- The comparison `theta <= 0` (source line 50) on a float that may be
`+inf`: `+inf <= 0` is false. -/
def F64.leZero : F64 → Prop
  | .fin x => x ≤ 0
  | .inf => False

/-- The comparison `clip < 0` (source line 58) on a float that may be
`+inf`: `+inf < 0` is false. -/
def F64.ltZero : F64 → Prop
  | .fin x => x < 0
  | .inf => False

/-- IEEE-754 division of a finite numerator by a float that may be `+inf`
(as in `mu**2 / theta`, source line 81): division by `+inf` yields `0`. -/
def F64.divBy (x : ℝ) : F64 → ℝ
  | .fin t => x / t
  | .inf => 0

/-- Element-wise clipping of a scalar to `[-c, +c]` in `np.clip` order
`min(c, max(-c, x))`; an infinite bound leaves the value unchanged
(IEEE: `min(+inf, max(-inf, x)) = x`). -/
def F64.clip (c : F64) (x : ℝ) : ℝ :=
  match c with
  | .fin c0 => min c0 (max (-c0) x)
  | .inf => x

/-- A dense cells-by-genes matrix: rows are observations (cells), columns
are variables (genes). -/
abbrev Mat (m n : ℕ) := Matrix (Fin m) (Fin n) ℝ

variable {m n : ℕ}

/-- Observable effects of a `_pearson_residuals` call, in program order. -/
inductive PREvent where
  | copyX       -- `X = X.copy()` (source line 47)
  | warnNonInt  -- the `UserWarning` about non-integer data (lines 61-65)
  | matrixPass  -- the sums / mu / residual / clip computation (lines 67-84)
deriving DecidableEq

/-- The two `ValueError`s `_pearson_residuals` can raise. -/
inductive PRError where
  | thetaError  -- raised at source line 53
  | clipError   -- raised at source line 59
deriving DecidableEq

/-- The exact message attached to each `_pearson_residuals` error. -/
def PRErrorMessage : PRError → String
  | .thetaError => "Pearson residuals require theta > 0"
  | .clipError => "Pearson residuals require `clip>=0` or `clip=None`."

/-- Modelled from the spec: `axis_sum(X, axis=0, dtype=np.float64)`
(source line 67) — per-gene column sums. -/
def sums_genes (X : Mat m n) : Fin n → ℝ := fun j => ∑ i, X i j

/-- Modelled from the spec: `axis_sum(X, axis=1, dtype=np.float64)`
(source line 68) — per-cell row sums. -/
def sums_cells (X : Mat m n) : Fin m → ℝ := fun i => ∑ j, X i j

/-- `sum_total = sums_genes.sum()` (source line 69): the grand sum, taken
as the sum of the column sums, exactly as in the source. -/
def sum_total (X : Mat m n) : ℝ := ∑ j, sums_genes X j

/-- `mu = sums_cells @ sums_genes / sum_total` (source line 73): the
expected value under the null model. -/
def mu (X : Mat m n) : Mat m n :=
  fun i j => sums_cells X i * sums_genes X j / sum_total X

/-- `residuals = diff / np.sqrt(mu + mu**2 / theta)` with
`diff = X - mu` (source lines 74 and 81); `theta` may be `+inf`. -/
def residuals (X : Mat m n) (theta : F64) : Mat m n :=
  fun i j =>
    (X i j - mu X i j) / Real.sqrt (mu X i j + F64.divBy (mu X i j ^ 2) theta)

/-- Modelled from the spec: `clip_array(residuals, -clip, clip)` (source
line 84, helper not in this slice) clips element-wise to `[-clip, +clip]`;
an infinite bound performs no clipping. -/
def clip_array (A : Mat m n) (c : F64) : Mat m n := fun i j => c.clip (A i j)

/-- Modelled from the spec: `check_nonnegative_integers(X)` (source line
61, helper not in this slice) holds iff every entry of `X` is a
nonnegative integer. -/
def check_nonnegative_integers (X : Mat m n) : Prop :=
  ∀ i j, 0 ≤ X i j ∧ ∃ k : ℕ, X i j = (k : ℝ)

/-- Resolution of the `clip` argument (source lines 55-57): `None`
defaults to `np.sqrt(n_obs)` where `n_obs` is the number of rows. -/
def resolve_clip (nobs : ℕ) (clip : Option F64) : F64 :=
  match clip with
  | none => .fin (Real.sqrt nobs)
  | some c => c

/-- Outcome of a `_pearson_residuals` call: the event trace in program
order and either the residual matrix or the raised error. -/
structure PRRun (m n : ℕ) where
  trace : List PREvent
  result : Except PRError (Mat m n)

/-- Shallow embedding of `_pearson_residuals` (source lines 40-86),
statement by statement: the defensive copy (line 47), the `theta` check
(lines 50-53), clip defaulting (lines 55-57) and check (lines 58-59), the
non-integer warning (lines 61-65), then the sums, `mu`, residual and
clipping pass (lines 67-84). -/
def _pearson_residuals (X : Mat m n) (theta : F64) (clip : Option F64)
    (check_values : Bool) (copy : Bool) : PRRun m n :=
  let ev0 : List PREvent := if copy = true then [.copyX] else []
  if theta.leZero then
    ⟨ev0, .error .thetaError⟩
  else
    let clipv := resolve_clip m clip
    if clipv.ltZero then
      ⟨ev0, .error .clipError⟩
    else
      let ev1 := ev0 ++
        (if check_values = true ∧ ¬ check_nonnegative_integers X then
          [.warnNonInt] else [])
      ⟨ev1 ++ [.matrixPass], .ok (clip_array (residuals X theta) clipv)⟩

/-- The `adata.uns` key written by `normalize_pearson_residuals`. -/
def prKey : String := "pearson_residuals_normalization"

/-- The sentinel name recorded when no layer is selected. -/
def adataXName : String := "adata.X"

/-- The settings record `dict(theta=theta, clip=clip, computed_on=...)`
(source line 153): exactly the three fields, with `clip` as passed by the
caller (`None` included, before any defaulting). -/
structure SettingsRecord where
  theta : F64
  clip : Option F64
  computed_on : String

/-- Modelled from the spec: the data-store boundary — a default matrix
slot `X`, named alternate layers, and the unstructured annotation dict
`uns` (only the settings-record key is relevant to this slice). -/
structure AnnData (m n : ℕ) where
  X : Mat m n
  layers : String → Option (Mat m n)
  uns : String → Option SettingsRecord

/-- Modelled from the spec: `_get_obs_rep(adata, layer=layer)` — read the
default slot when `layer` is `None`, else the named layer (absent layer
reads fail). -/
def _get_obs_rep (adata : AnnData m n) (layer : Option String) :
    Option (Mat m n) :=
  match layer with
  | none => some adata.X
  | some l => adata.layers l

/-- Modelled from the spec: `_set_obs_rep(adata, value, layer=layer)` —
write the default slot when `layer` is `None`, else the named layer. -/
def _set_obs_rep (adata : AnnData m n) (v : Mat m n)
    (layer : Option String) : AnnData m n :=
  match layer with
  | none => { adata with X := v }
  | some l =>
    { adata with layers := fun s => if s = l then some v else adata.layers s }

/-- `adata.uns[key] = v`. -/
def set_uns (adata : AnnData m n) (key : String) (v : SettingsRecord) :
    AnnData m n :=
  { adata with uns := fun s => if s = key then some v else adata.uns s }

/-- `computed_on = layer if layer else "adata.X"` (source line 147).
This is a Python truthiness test, not an is-None test: both `None` and
the falsy empty-string layer name map to `"adata.X"`. -/
def computedOn : Option String → String
  | none => adataXName
  | some l => if l = "" then adataXName else l

/-- The `results_dict` returned when `inplace=False` (source line 159):
exactly the keys `X`, `theta`, `clip`, `computed_on`. -/
structure ResultsDict (m n : ℕ) where
  X : Mat m n
  theta : F64
  clip : Option F64
  computed_on : String

/-- The three possible return values of `normalize_pearson_residuals`
(source lines 163-166): the copied AnnData, the results dict, or `None`. -/
inductive NPRReturn (m n : ℕ) where
  | adataRet : AnnData m n → NPRReturn m n
  | dictRet : ResultsDict m n → NPRReturn m n
  | noneRet : NPRReturn m n

/-- Errors `normalize_pearson_residuals` can raise. -/
inductive NPRError where
  | copyInplaceError  -- the ValueError at source line 142
  | keyError          -- named layer absent (raised inside `_get_obs_rep`)
  | pr : PRError → NPRError

/-- The exact message of the `copy`/`inplace` `ValueError` (line 142). -/
def NPRErrorMessage : NPRError → String
  | .copyInplaceError => "`copy=True` cannot be used with `inplace=False`."
  | .keyError => "layer not found"
  | .pr e => PRErrorMessage e

/-- Outcome of a `normalize_pearson_residuals` call: the caller's AnnData
after the call (mutated only on the `inplace=True, copy=False` path), the
event trace of the underlying transform, and the return value or error. -/
structure NPRRun (m n : ℕ) where
  adata : AnnData m n
  trace : List PREvent
  result : Except NPRError (NPRReturn m n)

/-- Shallow embedding of `normalize_pearson_residuals` (source lines
97-166).  The `copy`/`inplace` guard (lines 140-143) precedes everything;
with `copy=True` all later mutations go to a fresh copy, so the caller's
`adata` is returned unchanged and the mutated copy is the return value.
The transform is invoked with `copy=~inplace` (line 152): in Python `~`
on a `bool` is the bitwise complement, `-2` or `-1`, hence truthy for
BOTH values of `inplace`, so the copy flag passed down is always true. -/
def normalize_pearson_residuals (adata : AnnData m n) (theta : F64)
    (clip : Option F64) (check_values : Bool) (layer : Option String)
    (inplace : Bool) (copy : Bool) : NPRRun m n :=
  if copy = true ∧ inplace = false then
    ⟨adata, [], .error .copyInplaceError⟩
  else
    match _get_obs_rep adata layer with
    | none => ⟨adata, [], .error .keyError⟩
    | some X0 =>
      let run := _pearson_residuals X0 theta clip check_values true
      match run.result with
      | .error e => ⟨adata, run.trace, .error (.pr e)⟩
      | .ok residualsM =>
        let settings : SettingsRecord := ⟨theta, clip, computedOn layer⟩
        if inplace = true then
          let work := set_uns (_set_obs_rep adata residualsM layer) prKey settings
          if copy = true then ⟨adata, run.trace, .ok (.adataRet work)⟩
          else ⟨work, run.trace, .ok .noneRet⟩
        else
          ⟨adata, run.trace,
            .ok (.dictRet ⟨residualsM, theta, clip, computedOn layer⟩)⟩

/-! ### Helper lemmas -/

/-- On valid parameters the transform succeeds and returns the clipped
residual matrix. -/
theorem pr_ok (X : Mat m n) (theta : F64) (clip : Option F64)
    (cv cp : Bool) (ht : ¬ theta.leZero)
    (hc : ¬ (resolve_clip m clip).ltZero) :
    (_pearson_residuals X theta clip cv cp).result =
      .ok (clip_array (residuals X theta) (resolve_clip m clip)) := by
  unfold _pearson_residuals
  simp only [if_neg ht, if_neg hc]

/-- On valid parameters the trace ends with the matrix pass, preceded by
the optional copy and warning events. -/
theorem pr_ok_trace (X : Mat m n) (theta : F64) (clip : Option F64)
    (cv cp : Bool) (ht : ¬ theta.leZero)
    (hc : ¬ (resolve_clip m clip).ltZero) :
    (_pearson_residuals X theta clip cv cp).trace =
      (if cp = true then [PREvent.copyX] else []) ++
        (if cv = true ∧ ¬ check_nonnegative_integers X then
          [PREvent.warnNonInt] else []) ++ [PREvent.matrixPass] := by
  unfold _pearson_residuals
  simp only [if_neg ht, if_neg hc]

/-- On an invalid `theta` or a negative resolved `clip` the transform
raises, and the trace holds only the optional defensive-copy event. -/
theorem pr_invalid (X : Mat m n) (theta : F64) (clip : Option F64)
    (cv cp : Bool)
    (hbad : theta.leZero ∨ (resolve_clip m clip).ltZero) :
    (∃ e, (_pearson_residuals X theta clip cv cp).result = .error e)
    ∧ (_pearson_residuals X theta clip cv cp).trace =
        (if cp = true then [PREvent.copyX] else []) := by
  unfold _pearson_residuals
  by_cases ht : theta.leZero
  · simp only [if_pos ht]
    exact ⟨⟨.thetaError, rfl⟩, trivial⟩
  · have hc : (resolve_clip m clip).ltZero := hbad.resolve_left ht
    simp only [if_neg ht, if_pos hc]
    exact ⟨⟨.clipError, rfl⟩, trivial⟩

/-- Reading back the representation just written. -/
theorem get_set_obs_rep (adata : AnnData m n) (v : Mat m n)
    (layer : Option String) :
    _get_obs_rep (_set_obs_rep adata v layer) layer = some v := by
  cases layer with
  | none => rfl
  | some l => simp [_get_obs_rep, _set_obs_rep]

/-- `set_uns` does not touch the matrix slots. -/
theorem get_obs_rep_set_uns (adata : AnnData m n) (key : String)
    (v : SettingsRecord) (layer : Option String) :
    _get_obs_rep (set_uns adata key v) layer = _get_obs_rep adata layer := by
  cases layer <;> rfl

/-- Reading back the settings record just written. -/
theorem uns_set_uns (adata : AnnData m n) (key : String)
    (v : SettingsRecord) : (set_uns adata key v).uns key = some v := by
  simp [set_uns]

/-! ### Concrete objects used by witnesses and counterexamples -/

/-- A concrete 1x1 count matrix with single entry `2`. -/
def X1 : Mat 1 1 := fun _ _ => 2

/-- A concrete AnnData holding `X1`, no layers, empty `uns`. -/
def adata1 : AnnData 1 1 := ⟨X1, fun _ => none, fun _ => none⟩

/-- `theta = 100` (the source's default) is a valid overdispersion. -/
theorem theta100_ok : ¬ (F64.fin 100).leZero := by
  simp [F64.leZero]

/-- The defaulted clip bound `sqrt(n_obs)` is never negative. -/
theorem resolve_clip_none_ok (nobs : ℕ) :
    ¬ (resolve_clip nobs (none : Option F64)).ltZero := by
  simp [resolve_clip, F64.ltZero, not_lt, Real.sqrt_nonneg]

/-! ### Claims -/

/-- C1: for every input matrix `X` with `n` rows, every `theta > 0` and
every valid `clip`, `_pearson_residuals` returns the matrix whose `(i,j)`
entry is `((X i j - mu i j) / sqrt (mu i j + mu i j ^ 2 / theta))` clipped
element-wise to `[-clip, +clip]`, where `mu i j` is (row sum `i`) times
(column sum `j`) over the grand sum, and `clip = None` defaults to
`sqrt` of the number of rows. -/
theorem pearson_residuals_formula (X : Mat m n) (t : ℝ) (clip : Option F64)
    (cv cp : Bool) (ht : 0 < t) (hc : ¬ (resolve_clip m clip).ltZero) :
    ((_pearson_residuals X (.fin t) clip cv cp).result =
      .ok (fun i j =>
        (resolve_clip m clip).clip
          ((X i j - (∑ jq, X i jq) * (∑ iq, X iq j) / ∑ iq, ∑ jq, X iq jq) /
            Real.sqrt
              ((∑ jq, X i jq) * (∑ iq, X iq j) / (∑ iq, ∑ jq, X iq jq) +
                ((∑ jq, X i jq) * (∑ iq, X iq j) / (∑ iq, ∑ jq, X iq jq)) ^ 2
                  / t))))
    ∧ resolve_clip m (none : Option F64) = .fin (Real.sqrt m) := by
  constructor
  · have ht2 : ¬ (F64.fin t).leZero := by simp [F64.leZero, not_le, ht]
    rw [pr_ok X (.fin t) clip cv cp ht2 hc]
    have hst : (∑ jq, ∑ iq, X iq jq : ℝ) = ∑ iq, ∑ jq, X iq jq :=
      Finset.sum_comm
    congr 1
    funext i j
    simp only [clip_array, residuals, mu, sums_cells, sums_genes, sum_total,
      F64.divBy, hst]
  · rfl

/-- Witness for C1: the transform at the concrete matrix `X1`, `theta = 1`,
`clip = None`. -/
theorem pearson_residuals_formula_witness :
    (0 : ℝ) < 1 ∧ ¬ (resolve_clip 1 (none : Option F64)).ltZero ∧
      (((_pearson_residuals X1 (.fin 1) none true false).result =
        .ok (fun i j =>
          (resolve_clip 1 (none : Option F64)).clip
            ((X1 i j -
                (∑ jq, X1 i jq) * (∑ iq, X1 iq j) / ∑ iq, ∑ jq, X1 iq jq) /
              Real.sqrt
                ((∑ jq, X1 i jq) * (∑ iq, X1 iq j) /
                    (∑ iq, ∑ jq, X1 iq jq) +
                  ((∑ jq, X1 i jq) * (∑ iq, X1 iq j) /
                      (∑ iq, ∑ jq, X1 iq jq)) ^ 2 / 1))))
      ∧ resolve_clip 1 (none : Option F64) = .fin (Real.sqrt (1 : ℕ))) :=
  ⟨one_pos, resolve_clip_none_ok 1,
    pearson_residuals_formula X1 1 none true false one_pos
      (resolve_clip_none_ok 1)⟩

/-- C2: the transform raises the theta `ValueError` exactly when
`theta ≤ 0`, raises the clip `ValueError` exactly when an explicit
`clip < 0` is supplied (and theta is valid, the theta check coming
first), and succeeds for every `theta > 0` with `clip` unset, `≥ 0`,
or `+inf`. -/
theorem pearson_residuals_param_errors (X : Mat m n) (theta : F64)
    (clip : Option F64) (cv cp : Bool) :
    ((_pearson_residuals X theta clip cv cp).result = .error .thetaError ↔
      theta.leZero)
    ∧ ((_pearson_residuals X theta clip cv cp).result = .error .clipError ↔
        (¬ theta.leZero ∧ ∃ c, clip = some c ∧ c.ltZero))
    ∧ ((¬ theta.leZero ∧ ¬ (resolve_clip m clip).ltZero) →
        ∃ M, (_pearson_residuals X theta clip cv cp).result = .ok M) := by
  by_cases ht : theta.leZero
  · have hres : (_pearson_residuals X theta clip cv cp).result =
        .error .thetaError := by
      unfold _pearson_residuals
      simp only [if_pos ht]
    refine ⟨by simp [hres, ht], ?_, ?_⟩
    · rw [hres]
      simp [ht]
    · rintro ⟨ht2, -⟩
      exact absurd ht ht2
  · by_cases hc : (resolve_clip m clip).ltZero
    · have hres : (_pearson_residuals X theta clip cv cp).result =
          .error .clipError := by
        unfold _pearson_residuals
        simp only [if_neg ht, if_pos hc]
      refine ⟨by simp [hres, ht], ?_, ?_⟩
      · rw [hres]
        cases clip with
        | none => exact absurd hc (resolve_clip_none_ok m)
        | some c => exact iff_of_true rfl ⟨ht, c, rfl, hc⟩
      · rintro ⟨-, hc2⟩
        exact absurd hc hc2
    · have hres := pr_ok X theta clip cv cp ht hc
      refine ⟨by simp [hres, ht], ?_, fun _ => ⟨_, hres⟩⟩
      constructor
      · intro h
        rw [hres] at h
        exact absurd h (by simp)
      · rintro ⟨-, c, rfl, hlt⟩
        exact absurd hlt hc

/-- Witness for C2 at the concrete matrix `X1`, `theta = 100`,
`clip = None`: the valid-parameter side condition holds and the call
indeed succeeds. -/
theorem pearson_residuals_param_errors_witness :
    (¬ (F64.fin 100).leZero ∧
        ¬ (resolve_clip 1 (none : Option F64)).ltZero) ∧
      ∃ M, (_pearson_residuals X1 (.fin 100) none true false).result =
        .ok M :=
  have hv : ¬ (F64.fin 100).leZero ∧
      ¬ (resolve_clip 1 (none : Option F64)).ltZero :=
    ⟨theta100_ok, resolve_clip_none_ok 1⟩
  ⟨hv, (pearson_residuals_param_errors X1 (.fin 100) none true false).2.2
    hv⟩

/-- C8: when parameter validation passes, the non-integer `UserWarning`
is emitted exactly when `check_values` is true and some entry of `X` is
not a nonnegative integer, and the residual computation still runs to
completion (the warning never aborts the call). -/
theorem pearson_residuals_check_values_warning (X : Mat m n) (theta : F64)
    (clip : Option F64) (cv cp : Bool) (ht : ¬ theta.leZero)
    (hc : ¬ (resolve_clip m clip).ltZero) :
    (PREvent.warnNonInt ∈ (_pearson_residuals X theta clip cv cp).trace ↔
      (cv = true ∧ ¬ check_nonnegative_integers X))
    ∧ ∃ M, (_pearson_residuals X theta clip cv cp).result = .ok M := by
  refine ⟨?_, ⟨_, pr_ok X theta clip cv cp ht hc⟩⟩
  rw [pr_ok_trace X theta clip cv cp ht hc]
  cases cp <;> by_cases hw : cv = true ∧ ¬ check_nonnegative_integers X <;>
    simp [hw]

/-- Witness for C8 at `X1`, `theta = 100`, `clip = None`,
`check_values = True`. -/
theorem pearson_residuals_check_values_warning_witness :
    (¬ (F64.fin 100).leZero) ∧
      (¬ (resolve_clip 1 (none : Option F64)).ltZero) ∧
      ((PREvent.warnNonInt ∈
          (_pearson_residuals X1 (.fin 100) none true false).trace ↔
        (true = true ∧ ¬ check_nonnegative_integers X1))
      ∧ ∃ M, (_pearson_residuals X1 (.fin 100) none true false).result =
          .ok M) :=
  ⟨theta100_ok, resolve_clip_none_ok 1,
    pearson_residuals_check_values_warning X1 (.fin 100) none true false
      theta100_ok (resolve_clip_none_ok 1)⟩

/-- Element-wise clipping is a continuous map. -/
theorem clip_continuous (c : F64) : Continuous c.clip := by
  cases c with
  | inf =>
    show Continuous fun x : ℝ => x
    exact continuous_id
  | fin c0 =>
    show Continuous fun x : ℝ => min c0 (max (-c0) x)
    exact continuous_const.min (continuous_const.max continuous_id)

/-- For an entrywise-nonnegative input the null-model expectation is
entrywise nonnegative. -/
theorem mu_nonneg (X : Mat m n) (hX : ∀ i j, 0 ≤ X i j) (i : Fin m)
    (j : Fin n) : 0 ≤ mu X i j := by
  unfold mu sums_cells sums_genes sum_total
  apply div_nonneg
  · apply mul_nonneg <;> exact Finset.sum_nonneg fun _ _ => hX _ _
  · exact Finset.sum_nonneg fun _ _ => Finset.sum_nonneg fun _ _ => hX _ _

/-- C6: at `theta = +inf` the overdispersion term `mu^2/theta` vanishes
and the transform returns exactly the clipped Poisson residuals
`(X - mu)/sqrt(mu)`; and for finite `theta` growing without bound the
clipped residual entries converge to that Poisson-only value (over `ℝ`
there is no overflow to guard against). -/
theorem pearson_residuals_poisson_limit (X : Mat m n) (clip : Option F64)
    (cv cp : Bool) (hc : ¬ (resolve_clip m clip).ltZero)
    (hX : ∀ i j, 0 ≤ X i j) :
    ((_pearson_residuals X .inf clip cv cp).result =
      .ok (fun i j =>
        (resolve_clip m clip).clip
          ((X i j - mu X i j) / Real.sqrt (mu X i j))))
    ∧ ∀ i j, Filter.Tendsto
        (fun t : ℝ =>
          clip_array (residuals X (.fin t)) (resolve_clip m clip) i j)
        Filter.atTop
        (nhds ((resolve_clip m clip).clip
          ((X i j - mu X i j) / Real.sqrt (mu X i j)))) := by
  constructor
  · rw [pr_ok X .inf clip cv cp (by simp [F64.leZero]) hc]
    congr 1
    funext i j
    simp [clip_array, residuals, F64.divBy]
  · intro i j
    have ha : 0 ≤ mu X i j := mu_nonneg X hX i j
    have hfun : (fun t : ℝ =>
        clip_array (residuals X (.fin t)) (resolve_clip m clip) i j)
        = fun t : ℝ => (resolve_clip m clip).clip
            ((X i j - mu X i j) /
              Real.sqrt (mu X i j + mu X i j ^ 2 / t)) := by
      funext t
      simp [clip_array, residuals, F64.divBy]
    rw [hfun]
    rcases eq_or_lt_of_le ha with hz | hpos
    · have hconst : ∀ t : ℝ, (resolve_clip m clip).clip
          ((X i j - mu X i j) /
            Real.sqrt (mu X i j + mu X i j ^ 2 / t))
          = (resolve_clip m clip).clip
              ((X i j - mu X i j) / Real.sqrt (mu X i j)) := by
        intro t
        rw [← hz]
        norm_num
      simp only [hconst]
      exact tendsto_const_nhds
    · have h1 : Filter.Tendsto (fun t : ℝ => mu X i j ^ 2 / t)
          Filter.atTop (nhds 0) :=
        Filter.Tendsto.div_atTop tendsto_const_nhds Filter.tendsto_id
      have h2 : Filter.Tendsto (fun t : ℝ => mu X i j + mu X i j ^ 2 / t)
          Filter.atTop (nhds (mu X i j)) := by
        simpa using tendsto_const_nhds.add h1
      have h3 : Filter.Tendsto
          (fun t : ℝ => Real.sqrt (mu X i j + mu X i j ^ 2 / t))
          Filter.atTop (nhds (Real.sqrt (mu X i j))) :=
        (Real.continuous_sqrt.tendsto _).comp h2
      have hsq : Real.sqrt (mu X i j) ≠ 0 :=
        ne_of_gt (Real.sqrt_pos.mpr hpos)
      have h4 : Filter.Tendsto
          (fun t : ℝ => (X i j - mu X i j) /
            Real.sqrt (mu X i j + mu X i j ^ 2 / t))
          Filter.atTop
          (nhds ((X i j - mu X i j) / Real.sqrt (mu X i j))) :=
        Filter.Tendsto.div tendsto_const_nhds h3 hsq
      exact (((clip_continuous (resolve_clip m clip)).tendsto _).comp h4)

/-- Witness for C6 at `X1` (whose `mu` entry is the positive value `2`),
`clip = None`. -/
theorem pearson_residuals_poisson_limit_witness :
    (¬ (resolve_clip 1 (none : Option F64)).ltZero) ∧
      (∀ i j, 0 ≤ X1 i j) ∧
      (((_pearson_residuals X1 .inf none true false).result =
        .ok (fun i j =>
          (resolve_clip 1 (none : Option F64)).clip
            ((X1 i j - mu X1 i j) / Real.sqrt (mu X1 i j))))
      ∧ ∀ i j, Filter.Tendsto
          (fun t : ℝ =>
            clip_array (residuals X1 (.fin t))
              (resolve_clip 1 (none : Option F64)) i j)
          Filter.atTop
          (nhds ((resolve_clip 1 (none : Option F64)).clip
            ((X1 i j - mu X1 i j) / Real.sqrt (mu X1 i j))))) :=
  have hX : ∀ i j, 0 ≤ X1 i j := fun _ _ => by norm_num [X1]
  ⟨resolve_clip_none_ok 1, hX,
    pearson_residuals_poisson_limit X1 none true false
      (resolve_clip_none_ok 1) hX⟩

/-! ### Shape lemmas for `normalize_pearson_residuals` -/

/-- The `copy`/`inplace` guard: with `copy=True, inplace=False` the call
raises at once, before anything else. -/
theorem npr_guard (adata : AnnData m n) (theta : F64) (clip : Option F64)
    (cv : Bool) (layer : Option String) (inplace copy : Bool)
    (hguard : copy = true ∧ inplace = false) :
    normalize_pearson_residuals adata theta clip cv layer inplace copy =
      ⟨adata, [], .error .copyInplaceError⟩ := by
  unfold normalize_pearson_residuals
  rw [if_pos hguard]

/-- A named layer that is absent fails the read, before the transform. -/
theorem npr_layer_missing (adata : AnnData m n) (theta : F64)
    (clip : Option F64) (cv : Bool) (layer : Option String)
    (inplace copy : Bool) (hguard : ¬ (copy = true ∧ inplace = false))
    (hG : _get_obs_rep adata layer = none) :
    normalize_pearson_residuals adata theta clip cv layer inplace copy =
      ⟨adata, [], .error .keyError⟩ := by
  unfold normalize_pearson_residuals
  rw [if_neg hguard]
  simp only [hG]

/-- A transform error propagates, with the store untouched. -/
theorem npr_transform_error (adata : AnnData m n) (theta : F64)
    (clip : Option F64) (cv : Bool) (layer : Option String) (X0 : Mat m n)
    (e : PRError) (inplace copy : Bool)
    (hguard : ¬ (copy = true ∧ inplace = false))
    (hG : _get_obs_rep adata layer = some X0)
    (hR : (_pearson_residuals X0 theta clip cv true).result = .error e) :
    normalize_pearson_residuals adata theta clip cv layer inplace copy =
      ⟨adata, (_pearson_residuals X0 theta clip cv true).trace,
        .error (.pr e)⟩ := by
  unfold normalize_pearson_residuals
  rw [if_neg hguard]
  simp only [hG, hR]

/-- Success with `inplace=False`: the results dict is returned and the
store is untouched. -/
theorem npr_success_dict (adata : AnnData m n) (theta : F64)
    (clip : Option F64) (cv : Bool) (layer : Option String) (X0 M : Mat m n)
    (hG : _get_obs_rep adata layer = some X0)
    (hR : (_pearson_residuals X0 theta clip cv true).result = .ok M) :
    normalize_pearson_residuals adata theta clip cv layer false false =
      ⟨adata, (_pearson_residuals X0 theta clip cv true).trace,
        .ok (.dictRet ⟨M, theta, clip, computedOn layer⟩)⟩ := by
  unfold normalize_pearson_residuals
  rw [if_neg (by simp)]
  simp only [hG, hR]
  simp

/-- Success with `inplace=True, copy=False`: the residuals are written
back into the selected slot, the settings record into `uns`, and `None`
is returned. -/
theorem npr_success_set (adata : AnnData m n) (theta : F64)
    (clip : Option F64) (cv : Bool) (layer : Option String) (X0 M : Mat m n)
    (hG : _get_obs_rep adata layer = some X0)
    (hR : (_pearson_residuals X0 theta clip cv true).result = .ok M) :
    normalize_pearson_residuals adata theta clip cv layer true false =
      ⟨set_uns (_set_obs_rep adata M layer) prKey
          ⟨theta, clip, computedOn layer⟩,
        (_pearson_residuals X0 theta clip cv true).trace, .ok .noneRet⟩ := by
  unfold normalize_pearson_residuals
  rw [if_neg (by simp)]
  simp only [hG, hR]
  simp

/-- Success with `inplace=True, copy=True`: all mutations land on a fresh
copy, which is returned; the caller's AnnData is untouched. -/
theorem npr_success_copy (adata : AnnData m n) (theta : F64)
    (clip : Option F64) (cv : Bool) (layer : Option String) (X0 M : Mat m n)
    (hG : _get_obs_rep adata layer = some X0)
    (hR : (_pearson_residuals X0 theta clip cv true).result = .ok M) :
    normalize_pearson_residuals adata theta clip cv layer true true =
      ⟨adata, (_pearson_residuals X0 theta clip cv true).trace,
        .ok (.adataRet (set_uns (_set_obs_rep adata M layer) prKey
          ⟨theta, clip, computedOn layer⟩))⟩ := by
  unfold normalize_pearson_residuals
  rw [if_neg (by simp)]
  simp only [hG, hR]
  simp

/-- C3: on valid parameters, the `inplace=True` run writes into the
selected slot exactly the matrix returned as the dict's `X` entry by the
`inplace=False` run, and the stored settings record agrees field by field
with the dict's `theta`, `clip` and `computed_on` entries. -/
theorem normalize_inplace_parity (adata : AnnData m n) (theta : F64)
    (clip : Option F64) (cv : Bool) (layer : Option String) (X0 : Mat m n)
    (hX : _get_obs_rep adata layer = some X0) (ht : ¬ theta.leZero)
    (hc : ¬ (resolve_clip m clip).ltZero) :
    ∃ d : ResultsDict m n,
      (normalize_pearson_residuals adata theta clip cv layer false
          false).result = .ok (.dictRet d)
      ∧ _get_obs_rep
          (normalize_pearson_residuals adata theta clip cv layer true
            false).adata layer = some d.X
      ∧ (normalize_pearson_residuals adata theta clip cv layer true
          false).adata.uns prKey =
          some ⟨d.theta, d.clip, d.computed_on⟩ := by
  have hR := pr_ok X0 theta clip cv true ht hc
  refine ⟨⟨clip_array (residuals X0 theta) (resolve_clip m clip), theta,
    clip, computedOn layer⟩, ?_, ?_, ?_⟩
  · rw [npr_success_dict adata theta clip cv layer X0 _ hX hR]
  · rw [npr_success_set adata theta clip cv layer X0 _ hX hR]
    simp [get_obs_rep_set_uns, get_set_obs_rep]
  · rw [npr_success_set adata theta clip cv layer X0 _ hX hR]
    simp [uns_set_uns]

/-- Witness for C3 at `adata1`, `theta = 100`, `clip = None`, no layer. -/
theorem normalize_inplace_parity_witness :
    _get_obs_rep adata1 none = some X1 ∧ ¬ (F64.fin 100).leZero ∧
      ∃ d : ResultsDict 1 1,
        (normalize_pearson_residuals adata1 (.fin 100) none true none false
            false).result = .ok (.dictRet d)
        ∧ _get_obs_rep
            (normalize_pearson_residuals adata1 (.fin 100) none true none
              true false).adata none = some d.X
        ∧ (normalize_pearson_residuals adata1 (.fin 100) none true none
            true false).adata.uns prKey =
            some ⟨d.theta, d.clip, d.computed_on⟩ :=
  ⟨rfl, theta100_ok,
    normalize_inplace_parity adata1 (.fin 100) none true none X1 rfl
      theta100_ok (resolve_clip_none_ok 1)⟩

/-- C5: with `inplace=False` (and `copy=False`) the caller's data store is
left untouched — the AnnData after the call is exactly the AnnData before
it — and results are only ever handed back as the standalone dict (or the
call raises). -/
theorem normalize_not_inplace_pure (adata : AnnData m n) (theta : F64)
    (clip : Option F64) (cv : Bool) (layer : Option String) :
    (normalize_pearson_residuals adata theta clip cv layer false
        false).adata = adata
    ∧ ((∃ e, (normalize_pearson_residuals adata theta clip cv layer false
          false).result = .error e)
      ∨ (∃ d, (normalize_pearson_residuals adata theta clip cv layer false
          false).result = .ok (.dictRet d))) := by
  have hguard : ¬ ((false : Bool) = true ∧ (false : Bool) = false) := by
    simp
  cases hG : _get_obs_rep adata layer with
  | none =>
    rw [npr_layer_missing adata theta clip cv layer false false hguard hG]
    exact ⟨rfl, .inl ⟨_, rfl⟩⟩
  | some X0 =>
    cases hR : (_pearson_residuals X0 theta clip cv true).result with
    | error e =>
      rw [npr_transform_error adata theta clip cv layer X0 e false false
        hguard hG hR]
      exact ⟨rfl, .inl ⟨_, rfl⟩⟩
    | ok M =>
      rw [npr_success_dict adata theta clip cv layer X0 M hG hR]
      exact ⟨rfl, .inr ⟨_, rfl⟩⟩

/-- A concrete AnnData holding `X1` both in the default slot and in a
layer whose name is the empty string. -/
def adataL : AnnData 1 1 :=
  ⟨X1, fun s => if s = "" then some X1 else none, fun _ => none⟩

/-- C7 counterexample: selecting the layer named by the empty string
(present in the store), the residuals are computed on — and written back
to — that layer, yet the stored settings record's `computed_on` is
`"adata.X"`, not the name of the layer the residuals were computed on:
line 147 (`computed_on = layer if layer else "adata.X"`) tests Python
truthiness, and the empty-string layer name is falsy. -/
theorem normalize_computed_on_counterexample :
    ((normalize_pearson_residuals adataL (.fin 100) none true (some "")
        true false).adata.uns prKey = some ⟨.fin 100, none, adataXName⟩)
    ∧ ((normalize_pearson_residuals adataL (.fin 100) none true (some "")
        true false).adata.layers "" =
        some (clip_array (residuals X1 (.fin 100))
          (resolve_clip 1 (none : Option F64))))
    ∧ adataXName ≠ "" := by
  have hG : _get_obs_rep adataL (some "") = some X1 := by
    simp [_get_obs_rep, adataL]
  have hR := pr_ok X1 (.fin 100) none true true theta100_ok
    (resolve_clip_none_ok 1)
  rw [npr_success_set adataL (.fin 100) none true (some "") X1 _ hG hR]
  refine ⟨?_, ?_, by decide⟩
  · simp [set_uns, computedOn]
  · simp [set_uns, _set_obs_rep]

/-- C7 (amended): every successful call produces the settings record with
exactly the fields `theta` and `clip` as passed by the caller (`clip`
before any defaulting) and `computed_on` equal to the selected layer's
name when that name is truthy (non-empty); when no layer is selected —
or the selected layer name is the falsy empty string, per line 147's
truthiness test — `computed_on` is the string "adata.X"; with
`inplace=True` the record is stored in `adata.uns` under the key
"pearson_residuals_normalization". -/
theorem normalize_settings_record (adata : AnnData m n) (theta : F64)
    (clip : Option F64) (cv : Bool) (layer : Option String) (X0 : Mat m n)
    (hX : _get_obs_rep adata layer = some X0) (ht : ¬ theta.leZero)
    (hc : ¬ (resolve_clip m clip).ltZero) :
    ((normalize_pearson_residuals adata theta clip cv layer true
        false).adata.uns prKey = some ⟨theta, clip, computedOn layer⟩)
    ∧ (∃ d : ResultsDict m n,
        (normalize_pearson_residuals adata theta clip cv layer false
            false).result = .ok (.dictRet d)
        ∧ d.theta = theta ∧ d.clip = clip ∧ d.computed_on = computedOn layer)
    ∧ (∀ l : String, l ≠ "" → computedOn (some l) = l)
    ∧ computedOn (some "") = "adata.X"
    ∧ computedOn (none : Option String) = "adata.X"
    ∧ prKey = "pearson_residuals_normalization" := by
  have hR := pr_ok X0 theta clip cv true ht hc
  refine ⟨?_, ⟨⟨clip_array (residuals X0 theta) (resolve_clip m clip),
    theta, clip, computedOn layer⟩, ?_, rfl, rfl, rfl⟩,
    fun l hl => by simp [computedOn, hl], by decide, rfl, rfl⟩
  · rw [npr_success_set adata theta clip cv layer X0 _ hX hR]
    simp [uns_set_uns]
  · rw [npr_success_dict adata theta clip cv layer X0 _ hX hR]

/-- Witness for the amended C7 at `adata1`, `theta = 100`, `clip = None`,
no layer. -/
theorem normalize_settings_record_witness :
    _get_obs_rep adata1 none = some X1 ∧ ¬ (F64.fin 100).leZero ∧
      (((normalize_pearson_residuals adata1 (.fin 100) none true none true
          false).adata.uns prKey =
          some ⟨.fin 100, none, computedOn none⟩)
      ∧ (∃ d : ResultsDict 1 1,
          (normalize_pearson_residuals adata1 (.fin 100) none true none
              false false).result = .ok (.dictRet d)
          ∧ d.theta = .fin 100 ∧ d.clip = none
          ∧ d.computed_on = computedOn none)
      ∧ (∀ l : String, l ≠ "" → computedOn (some l) = l)
      ∧ computedOn (some "") = "adata.X"
      ∧ computedOn (none : Option String) = "adata.X"
      ∧ prKey = "pearson_residuals_normalization") :=
  ⟨rfl, theta100_ok,
    normalize_settings_record adata1 (.fin 100) none true none X1 rfl
      theta100_ok (resolve_clip_none_ok 1)⟩

/-- C9: `copy=True` with `inplace=False` raises the `ValueError` with the
documented message before any work (empty trace, AnnData untouched);
`copy=True` with `inplace=True` leaves the caller's AnnData unmodified
and, on success, returns the fresh copy carrying all the mutations (the
written residuals and the settings record). -/
theorem normalize_copy_semantics (adata : AnnData m n) (theta : F64)
    (clip : Option F64) (cv : Bool) (layer : Option String) :
    (normalize_pearson_residuals adata theta clip cv layer false true =
      ⟨adata, [], .error .copyInplaceError⟩)
    ∧ NPRErrorMessage .copyInplaceError =
        "`copy=True` cannot be used with `inplace=False`."
    ∧ (normalize_pearson_residuals adata theta clip cv layer true
        true).adata = adata
    ∧ ∀ r, (normalize_pearson_residuals adata theta clip cv layer true
        true).result = .ok r →
        ∃ M, r = .adataRet (set_uns (_set_obs_rep adata M layer) prKey
          ⟨theta, clip, computedOn layer⟩) := by
  have hguard : ¬ ((true : Bool) = true ∧ (true : Bool) = false) := by simp
  have hmain : (normalize_pearson_residuals adata theta clip cv layer true
      true).adata = adata
      ∧ ∀ r, (normalize_pearson_residuals adata theta clip cv layer true
          true).result = .ok r →
          ∃ M, r = .adataRet (set_uns (_set_obs_rep adata M layer) prKey
            ⟨theta, clip, computedOn layer⟩) := by
    cases hG : _get_obs_rep adata layer with
    | none =>
      rw [npr_layer_missing adata theta clip cv layer true true hguard hG]
      exact ⟨rfl, fun r hr => absurd hr (by simp)⟩
    | some X0 =>
      cases hR : (_pearson_residuals X0 theta clip cv true).result with
      | error e =>
        rw [npr_transform_error adata theta clip cv layer X0 e true true
          hguard hG hR]
        exact ⟨rfl, fun r hr => absurd hr (by simp)⟩
      | ok M =>
        rw [npr_success_copy adata theta clip cv layer X0 M hG hR]
        exact ⟨rfl, fun r hr => ⟨M, (Except.ok.inj hr).symm⟩⟩
  exact ⟨npr_guard adata theta clip cv layer false true ⟨rfl, rfl⟩, rfl,
    hmain.1, hmain.2⟩

/-- Witness for C9 at `adata1`, `theta = 100`, `clip = None`, no layer. -/
theorem normalize_copy_semantics_witness :
    (normalize_pearson_residuals adata1 (.fin 100) none true none false
        true = ⟨adata1, [], .error .copyInplaceError⟩)
    ∧ NPRErrorMessage .copyInplaceError =
        "`copy=True` cannot be used with `inplace=False`."
    ∧ (normalize_pearson_residuals adata1 (.fin 100) none true none true
        true).adata = adata1
    ∧ ∀ r, (normalize_pearson_residuals adata1 (.fin 100) none true none
        true true).result = .ok r →
        ∃ M, r = .adataRet (set_uns (_set_obs_rep adata1 M none) prKey
          ⟨.fin 100, none, computedOn none⟩) :=
  normalize_copy_semantics adata1 (.fin 100) none true none

/-- C10: a successful call's return value is determined exactly by the
flags — the copied AnnData iff `copy=True`, the results dict iff
`inplace=False`, and `None` iff `inplace=True` and `copy=False`. -/
theorem normalize_return_shape (adata : AnnData m n) (theta : F64)
    (clip : Option F64) (cv : Bool) (layer : Option String)
    (inplace copy : Bool) (r : NPRReturn m n)
    (h : (normalize_pearson_residuals adata theta clip cv layer inplace
        copy).result = .ok r) :
    ((∃ a2, r = .adataRet a2) ↔ copy = true)
    ∧ ((∃ d, r = .dictRet d) ↔ inplace = false)
    ∧ (r = .noneRet ↔ (inplace = true ∧ copy = false)) := by
  cases copy with
  | true =>
    cases inplace with
    | false =>
      rw [npr_guard adata theta clip cv layer false true ⟨rfl, rfl⟩] at h
      exact absurd h (by simp)
    | true =>
      cases hG : _get_obs_rep adata layer with
      | none =>
        rw [npr_layer_missing adata theta clip cv layer true true
          (by simp) hG] at h
        exact absurd h (by simp)
      | some X0 =>
        cases hR : (_pearson_residuals X0 theta clip cv true).result with
        | error e =>
          rw [npr_transform_error adata theta clip cv layer X0 e true true
            (by simp) hG hR] at h
          exact absurd h (by simp)
        | ok M =>
          rw [npr_success_copy adata theta clip cv layer X0 M hG hR] at h
          have hr := (Except.ok.inj h).symm
          subst hr
          simp
  | false =>
    cases hG : _get_obs_rep adata layer with
    | none =>
      rw [npr_layer_missing adata theta clip cv layer inplace false
        (by simp) hG] at h
      exact absurd h (by simp)
    | some X0 =>
      cases hR : (_pearson_residuals X0 theta clip cv true).result with
      | error e =>
        rw [npr_transform_error adata theta clip cv layer X0 e inplace
          false (by simp) hG hR] at h
        exact absurd h (by simp)
      | ok M =>
        cases inplace with
        | true =>
          rw [npr_success_set adata theta clip cv layer X0 M hG hR] at h
          have hr := (Except.ok.inj h).symm
          subst hr
          simp
        | false =>
          rw [npr_success_dict adata theta clip cv layer X0 M hG hR] at h
          have hr := (Except.ok.inj h).symm
          subst hr
          simp

/-- Witness for C10: the concrete `inplace=True, copy=False` call on
`adata1` succeeds with return value `None`. -/
theorem normalize_return_shape_witness :
    ((normalize_pearson_residuals adata1 (.fin 100) none true none true
        false).result = .ok .noneRet)
    ∧ (((∃ a2, (NPRReturn.noneRet : NPRReturn 1 1) = .adataRet a2) ↔
          (false : Bool) = true)
      ∧ ((∃ d, (NPRReturn.noneRet : NPRReturn 1 1) = .dictRet d) ↔
          (true : Bool) = false)
      ∧ ((NPRReturn.noneRet : NPRReturn 1 1) = .noneRet ↔
          ((true : Bool) = true ∧ (false : Bool) = false))) :=
  have h : (normalize_pearson_residuals adata1 (.fin 100) none true none
      true false).result = .ok .noneRet := by
    rw [npr_success_set adata1 (.fin 100) none true none X1 _ rfl
      (pr_ok X1 (.fin 100) none true true theta100_ok
        (resolve_clip_none_ok 1))]
  ⟨h, normalize_return_shape adata1 (.fin 100) none true none true false
    .noneRet h⟩

/-- C4 counterexample: calling `normalize_pearson_residuals` with the
invalid `theta = 0` still executes the defensive `X.copy()` of source
line 47 before the validation error is raised — the transform receives
`copy=~inplace` (line 152), the Python bitwise complement of a bool,
which is truthy for both values of `inplace` — refuting "no copy of the
input matrix is taken". -/
theorem normalize_invalid_theta_copies_first :
    (normalize_pearson_residuals adata1 (.fin 0) none true none true
        false).trace = [PREvent.copyX]
    ∧ (normalize_pearson_residuals adata1 (.fin 0) none true none true
        false).result = .error (.pr .thetaError) := by
  have hle : (F64.fin 0).leZero := le_refl (0 : ℝ)
  have hR : (_pearson_residuals X1 (.fin 0) none true true).result =
      .error .thetaError := by
    unfold _pearson_residuals
    rw [if_pos hle]
  have hT : (_pearson_residuals X1 (.fin 0) none true true).trace =
      [PREvent.copyX] := by
    unfold _pearson_residuals
    rw [if_pos hle]
    simp
  rw [npr_transform_error adata1 (.fin 0) none true none X1 .thetaError
    true false (by simp) rfl hR]
  exact ⟨hT, rfl⟩

/-- C4 (amended): with an invalid parameter (`theta ≤ 0`, or resolved
`clip < 0`) every call fails before any matrix pass — no sums or
residuals are computed, no warning is emitted, and the data store is
exactly as it was — though the defensive copy of the input matrix may
already have been taken (it always is via `normalize_pearson_residuals`,
which passes the truthy `copy=~inplace`). -/
theorem normalize_invalid_fails_fast (adata : AnnData m n) (theta : F64)
    (clip : Option F64) (cv : Bool) (layer : Option String)
    (inplace copy : Bool)
    (hbad : theta.leZero ∨ (resolve_clip m clip).ltZero) :
    (∃ e, (normalize_pearson_residuals adata theta clip cv layer inplace
        copy).result = .error e)
    ∧ (normalize_pearson_residuals adata theta clip cv layer inplace
        copy).adata = adata
    ∧ PREvent.matrixPass ∉ (normalize_pearson_residuals adata theta clip
        cv layer inplace copy).trace
    ∧ PREvent.warnNonInt ∉ (normalize_pearson_residuals adata theta clip
        cv layer inplace copy).trace := by
  by_cases hguard : copy = true ∧ inplace = false
  · rw [npr_guard adata theta clip cv layer inplace copy hguard]
    exact ⟨⟨_, rfl⟩, rfl, by simp, by simp⟩
  · cases hG : _get_obs_rep adata layer with
    | none =>
      rw [npr_layer_missing adata theta clip cv layer inplace copy hguard
        hG]
      exact ⟨⟨_, rfl⟩, rfl, by simp, by simp⟩
    | some X0 =>
      obtain ⟨⟨e, hR⟩, hT⟩ := pr_invalid X0 theta clip cv true hbad
      rw [npr_transform_error adata theta clip cv layer X0 e inplace copy
        hguard hG hR]
      refine ⟨⟨_, rfl⟩, rfl, ?_, ?_⟩ <;> rw [hT] <;> simp

/-- Witness for the amended C4 at `adata1` with `theta = -1`. -/
theorem normalize_invalid_fails_fast_witness :
    ((F64.fin (-1)).leZero ∨
        (resolve_clip 1 (none : Option F64)).ltZero) ∧
      ((∃ e, (normalize_pearson_residuals adata1 (.fin (-1)) none true
          none true false).result = .error e)
      ∧ (normalize_pearson_residuals adata1 (.fin (-1)) none true none
          true false).adata = adata1
      ∧ PREvent.matrixPass ∉ (normalize_pearson_residuals adata1
          (.fin (-1)) none true none true false).trace
      ∧ PREvent.warnNonInt ∉ (normalize_pearson_residuals adata1
          (.fin (-1)) none true none true false).trace) :=
  have hbad : (F64.fin (-1)).leZero ∨
      (resolve_clip 1 (none : Option F64)).ltZero :=
    Or.inl (by norm_num [F64.leZero])
  ⟨hbad, normalize_invalid_fails_fast adata1 (.fin (-1)) none true none
    true false hbad⟩

end

end Scanpy
